import Mathlib

/-!
Verification development for the attendance-deduction engine in
`src/app/processing.py` (`process_attendance` and its helpers).

Modelling conventions (shallow embedding):
* times of day are minutes since midnight (`Nat`); the constants
  SHIFT_START/GRACE_LIMIT/FLEX_LIMIT from lines 80-82 become 600/615/660;
* hours are exact rationals (`Rat`); pandas floats are modelled exactly,
  with the float values NaN/±infinity modelled as `Option.none` where the
  code can produce them (a missing timestamp difference, an unparsable
  duration);
* a pandas column is a `List`; `groupby(...).cumsum()` is a streaming fold
  with per-key counters (`cumsumByKey`); `groupby(...).apply` is
  concatenation of the per-key sublists, which pandas forms in original
  row order within each group (rows whose key is missing are dropped by
  pandas `groupby`, which the model reproduces);
* input rows carry the values after the parsing steps of lines 45-58:
  `date` is the parsed (day-first) date or `none`, `punch_in_time` and
  `punch_out_time` the parsed times of day or `none`, `worked_duration`
  the `pd.to_timedelta` result in hours or `none` (note `to_timedelta`
  accepts signed duration strings, so this value may be negative).
-/

namespace Attendance

/-- Minutes since midnight. -/
abbrev Time := Nat

/-- Shift start 10:00 (line 80). -/
def SHIFT_START : Time := 600

/-- Grace limit 10:15 (line 81). -/
def GRACE_LIMIT : Time := 615

/-- Flex limit 11:00 (line 82). -/
def FLEX_LIMIT : Time := 660

/-- Proleptic Gregorian calendar date. -/
structure Date where
  year : Int
  month : Nat
  day : Nat
deriving DecidableEq, Repr, Inhabited

/-- Gregorian leap-year rule. -/
def isLeap (y : Int) : Bool := (y % 4 == 0 && y % 100 != 0) || (y % 400 == 0)

/-- Number of days in a month. -/
def monthLength (y : Int) (m : Nat) : Nat :=
  if m = 2 then (if isLeap y then 29 else 28)
  else if m = 4 ∨ m = 6 ∨ m = 9 ∨ m = 11 then 30
  else 31

/-- The previous calendar day. -/
def predDay (d : Date) : Date :=
  if 1 < d.day then ⟨d.year, d.month, d.day - 1⟩
  else if 1 < d.month then ⟨d.year, d.month - 1, monthLength d.year (d.month - 1)⟩
  else ⟨d.year - 1, 12, 31⟩

/-- Shift a date back by `n` days (`date - pd.DateOffset(days=n)`). -/
def subDays (d : Date) : Nat → Date
  | 0 => d
  | n + 1 => subDays (predDay d) n

/-- A year-month period, as produced by `.dt.to_period("M")`. -/
structure Period where
  year : Int
  month : Nat
deriving DecidableEq, Repr, Inhabited

/-- The period (calendar month) a date belongs to. -/
def Date.period (d : Date) : Period := ⟨d.year, d.month⟩

/-- The period immediately before `p`. -/
def prevPeriod (p : Period) : Period :=
  if 1 < p.month then ⟨p.year, p.month - 1⟩ else ⟨p.year - 1, 12⟩

/-- `month_cycle`: the calendar month of the date shifted back 24 days,
`(df["date"] - pd.DateOffset(days=24)).dt.to_period("M")` (line 47). -/
def monthCycle (d : Date) : Period := (subDays d 24).period

/-- One input row after column mapping and the parsing steps of lines
45-58.  `employee_id` is `none` when the source cell is missing (pandas
NaN), in which case `groupby` drops the row from every grouped
computation. -/
structure InputRow where
  employee_id : Option String
  employee_name : String
  date : Option Date
  punch_in_time : Option Time
  punch_out_time : Option Time
  worked_duration : Option Rat
  attendance_status : String
deriving DecidableEq, Repr, Inhabited

/-- Exact rational addition, stated on the numerator/denominator
representation so that concrete values evaluate inside the kernel;
`ratAdd_eq` identifies it with `+`. -/
def ratAdd (a b : Rat) : Rat := Rat.divInt (a.num * b.den + b.num * a.den) (a.den * b.den)

/-- Exact rational subtraction; `ratSub_eq` identifies it with `-`. -/
def ratSub (a b : Rat) : Rat := Rat.divInt (a.num * b.den - b.num * a.den) (a.den * b.den)

/-- Exact division of a rational by a natural number;
`ratDivNat_eq` identifies it with `/`. -/
def ratDivNat (a : Rat) (n : Nat) : Rat := Rat.divInt a.num (a.den * n)

/-- Sum of a list of rationals; `ratSum_eq` identifies it with `List.sum`. -/
def ratSum (l : List Rat) : Rat := l.foldr ratAdd 0

/-- Status normalization `astype(str).str.strip().str.upper()`
(lines 38-43): strip surrounding whitespace, uppercase. -/
def normStatus (s : String) : String :=
  ⟨(((s.data.dropWhile Char.isWhitespace).reverse.dropWhile
      Char.isWhitespace).reverse).map Char.toUpper⟩

/-- `working_day = (attendance_status == "P")` (line 77). -/
def workingDay (r : InputRow) : Bool := decide (normStatus r.attendance_status = "P")

/-- `is_within_grace` (lines 84-85): on a working day, a present punch-in
strictly after shift start and at most the grace limit. -/
def withinGrace (r : InputRow) : Bool :=
  workingDay r &&
    (match r.punch_in_time with
     | some t => decide (SHIFT_START < t) && decide (t ≤ GRACE_LIMIT)
     | none => false)

/-- `is_late_beyond_grace` (lines 87-88). -/
def lateBeyondGrace (r : InputRow) : Bool :=
  workingDay r &&
    (match r.punch_in_time with
     | some t => decide (GRACE_LIMIT < t)
     | none => false)

/-- `is_flex_late` (lines 90-91). -/
def flexLate (r : InputRow) : Bool :=
  workingDay r &&
    (match r.punch_in_time with
     | some t => decide (GRACE_LIMIT < t) && decide (t ≤ FLEX_LIMIT)
     | none => false)

/-- The punch-in/punch-out pair in minutes, after the overnight correction
of line 69 (`punch_out += 1 day` when `punch_out < punch_in`).  The full
timestamps of lines 60-67 exist only when the date and both times parse;
otherwise the difference is NaT, modelled as `none`. -/
def punchPair (r : InputRow) : Option (Nat × Nat) :=
  match r.date, r.punch_in_time, r.punch_out_time with
  | some _, some pin, some pout => some (pin, if pout < pin then pout + 1440 else pout)
  | _, _, _ => none

/-- `working_hours` (lines 71-74): timestamp difference in hours, with the
`worked_duration` fallback (`fillna`), and NaN/±infinity replaced by 0.
In the model the nonfinite values are the `none`s of the two sources. -/
def workingHours (r : InputRow) : Rat :=
  match punchPair r with
  | some (pin, pout) => Rat.divInt ((pout : Int) - (pin : Int)) 60
  | none =>
    match r.worked_duration with
    | some h => h
    | none => 0

/-- The `(employee_id, month_cycle)` key used by the grouped cumulative
counts of lines 97 and 100; `none` when either component is missing (such
rows are dropped by pandas `groupby`, their cumulative count is NaN). -/
def cycleKey (r : InputRow) : Option (String × Period) :=
  match r.employee_id, r.date with
  | some e, some d => some (e, monthCycle d)
  | _, _ => none

/-- Counter lookup in the running per-key state (0 before the first row of
a key). -/
def getCount {K : Type} [DecidableEq K] (st : List (K × Nat)) (k : K) : Nat :=
  match st with
  | [] => 0
  | (k0, n) :: st => if k = k0 then n else getCount st k

/-- Streaming model of `df.groupby(key)[flag].cumsum()` on a boolean
column: one pass over the rows, keeping one counter per key; a row whose
key is missing gets a missing count (pandas NaN). -/
def cumsumByKey {α K : Type} [DecidableEq K] (keyOf : α → Option K) (flag : α → Bool) :
    List α → List (K × Nat) → List (Option Nat)
  | [], _ => []
  | r :: rs, st =>
    match keyOf r with
    | none => none :: cumsumByKey keyOf flag rs st
    | some k =>
      let n := getCount st k + (if flag r then 1 else 0)
      some n :: cumsumByKey keyOf flag rs ((k, n) :: st)

/-- Number of rows before or at a position that share a key and satisfy a
flag: the specification-side count a grouped cumulative sum realises. -/
def keyCount {α K : Type} [DecidableEq K] (keyOf : α → Option K) (flag : α → Bool)
    (k : K) (l : List α) : Nat :=
  l.countP (fun r => decide (keyOf r = some k) && flag r)

/-- The `grace_count` column (line 97). -/
def graceCounts (rows : List InputRow) : List (Option Nat) :=
  cumsumByKey cycleKey withinGrace rows []

/-- The `flex_count` column (line 100). -/
def flexCounts (rows : List InputRow) : List (Option Nat) :=
  cumsumByKey cycleKey flexLate rows []

/-- `count > threshold` on an optional count; pandas `NaN > n` is False. -/
def optGT (threshold : Nat) : Option Nat → Bool
  | some n => decide (threshold < n)
  | none => false

/-- The `grace_violation` column (line 98). -/
def graceViolationCol (rows : List InputRow) : List Bool :=
  (graceCounts rows).map (optGT 4)

/-- The `flex_violation` column (line 101). -/
def flexViolationCol (rows : List InputRow) : List Bool :=
  (flexCounts rows).map (optGT 5)

/-- A row enriched with its cumulative counts. -/
structure Row where
  inp : InputRow
  grace_count : Option Nat
  flex_count : Option Nat
deriving DecidableEq, Repr, Inhabited

/-- `grace_violation` of one enriched row. -/
def gViol (r : Row) : Bool := optGT 4 r.grace_count

/-- `flex_violation` of one enriched row. -/
def fViol (r : Row) : Bool := optGT 5 r.flex_count

/-- Rows zipped with their two cumulative-count columns. -/
def mkRows (rows : List InputRow) : List Row :=
  List.zipWith (fun r p => ⟨r, p.1, p.2⟩) rows ((graceCounts rows).zip (flexCounts rows))

/-- `mask_full` (line 106). -/
def maskFull (r : Row) : Bool :=
  workingDay r.inp && lateBeyondGrace r.inp && gViol r && decide (workingHours r.inp < 9)

/-- `mask_half` (line 109). -/
def maskHalf (r : Row) : Bool :=
  workingDay r.inp && lateBeyondGrace r.inp && gViol r && (!flexLate r.inp || fViol r)

/-- `mask_full2` (line 112). -/
def maskFull2 (r : Row) : Bool :=
  workingDay r.inp && !lateBeyondGrace r.inp && decide (workingHours r.inp < 8)

/-- `mask_half2` (line 115). -/
def maskHalf2 (r : Row) : Bool :=
  workingDay r.inp && !lateBeyondGrace r.inp &&
    decide (8 ≤ workingHours r.inp) && decide (workingHours r.inp < 9)

/-- `full_day` after lines 104, 107 and 113: initialized to 0, set to 1.0
by either full-day mask (both set the same value, so order is immaterial). -/
def fullDay0 (r : Row) : Rat := if maskFull r || maskFull2 r then 1 else 0

/-- `half_day` after lines 103, 110 and 116. -/
def halfDay0 (r : Row) : Rat := if maskHalf r || maskHalf2 r then Rat.divInt 1 2 else 0

/-- A row after the deduction rules: the three mutable columns
`half_day`, `full_day`, `day_deduction`. -/
structure ERow where
  row : Row
  half_day : Rat
  full_day : Rat
  day_deduction : Rat
deriving DecidableEq, Repr, Inhabited

/-- The per-row deduction rules of lines 103-118;
`day_deduction = max(half_day, full_day)` (line 118). -/
def mkERow (r : Row) : ERow := ⟨r, halfDay0 r, fullDay0 r, max (halfDay0 r) (fullDay0 r)⟩

/-- All rows through the deduction rules. -/
def mkERows (rows : List InputRow) : List ERow := (mkRows rows).map mkERow

/-- The `employee_id` of an enriched row. -/
def empOf (e : ERow) : Option String := e.row.inp.employee_id

/-- `working_day` of an enriched row. -/
def workingDayE (e : ERow) : Bool := workingDay e.row.inp

/-- `flex_late` of an enriched row. -/
def flexLateE (e : ERow) : Bool := flexLate e.row.inp

/-- `working_hours` of an enriched row. -/
def whE (e : ERow) : Rat := workingHours e.row.inp

/-- `sub_df.loc[allowed, ['day_deduction', 'half_day', 'full_day']] = 0`
(line 124) on one row. -/
def zeroDeductions (e : ERow) : ERow := ⟨e.row, 0, 0, 0⟩

/-- The guard of `apply_average_rule` (lines 121-122): the mean of
`working_hours` over the group rows with `working_day` true exceeds 9.5.
The mean of an empty selection is NaN in pandas and `NaN > 9.5` is False,
so an employee with no working-day rows never passes the guard. -/
def avgHoursCond (g : List ERow) : Bool :=
  let ws := g.filter workingDayE
  decide (0 < ws.length) && decide (Rat.divInt 19 2 < ratDivNat (ratSum (ws.map whE)) ws.length)

/-- Zero the deduction fields of the first `n` rows with `flex_late` true,
in order (`sub_df[sub_df['flex_late']].head(n).index`, lines 123-124). -/
def zeroFirstFlex : Nat → List ERow → List ERow
  | _, [] => []
  | 0, es => es
  | n + 1, e :: es =>
    if flexLateE e then zeroDeductions e :: zeroFirstFlex n es
    else e :: zeroFirstFlex (n + 1) es

/-- `apply_average_rule` on one employee group (lines 120-125). -/
def overrideGroup (g : List ERow) : List ERow :=
  if avgHoursCond g then zeroFirstFlex 5 g else g

/-- The distinct employee ids present (pandas `groupby` drops rows whose
key is NaN and sorts the distinct keys; the order in which the groups are
enumerated is irrelevant to every property proved here, so the model
takes the distinct ids in `dedup` order). -/
def groupKeys (l : List ERow) : List String := (l.filterMap empOf).dedup

/-- `df.groupby('employee_id', group_keys=False).apply(apply_average_rule)`
(line 127): every employee group, in original row order within the group,
run through `apply_average_rule` and reassembled. -/
def applyAverageRule (l : List ERow) : List ERow :=
  (groupKeys l).flatMap (fun k => overrideGroup (l.filter (fun e => decide (empOf e = some k))))

/-- The record table after the deduction rules and the average-hours
override (the state of `df` after line 127); `payable_day` and
`deduction_reason` are additional columns computed per row from it. -/
def pipeline (rows : List InputRow) : List ERow := applyAverageRule (mkERows rows)

/-- `payable_day` (lines 129-133): sequential assignments for WO / A / P
over a column initialized to 0, then `clip(0, 1)`. -/
def payableDay (e : ERow) : Rat :=
  let s := normStatus e.row.inp.attendance_status
  let v1 : Rat := if s = "WO" then 1 else 0
  let v2 : Rat := if s = "A" then 0 else v1
  let v3 : Rat := if s = "P" then ratSub 1 e.day_deduction else v2
  min (max v3 0) 1

/-- `', '.join(...)` on a list of phrases. -/
def joinComma : List String → String
  | [] => ""
  | [x] => x
  | x :: xs => x ++ ", " ++ joinComma xs

/-- The phrase list built by `get_reason` when `day_deduction > 0`
(lines 146-156): the two hour phrases are an if/elif, the rest additive. -/
def reasonList (e : ERow) : List String :=
  (if lateBeyondGrace e.row.inp then ["Late beyond grace"] else []) ++
  (if fViol e.row then ["Flex violation"] else []) ++
  (if workingHours e.row.inp < 8 then ["Working hours < 8"]
   else if 8 ≤ workingHours e.row.inp ∧ workingHours e.row.inp < 9 then
     ["Working hours between 8–9"]
   else []) ++
  (if gViol e.row then ["Grace violation > 4"] else [])

/-- `get_reason` (lines 144-157). -/
def deductionReason (e : ERow) : String :=
  if 0 < e.day_deduction then joinComma (reasonList e) else ""

/-- Zero-padded two-digit rendering. -/
def pad2 (n : Nat) : String := if n < 10 then "0" ++ toString n else toString n

/-- `strftime('%d/%m/%Y')` (line 168). -/
def formatDate (d : Date) : String :=
  pad2 d.day ++ "/" ++ pad2 d.month ++ "/" ++ toString d.year

/-- `deduction_rows = df[df['day_deduction'] > 0]` (line 165). -/
def deductionRows (l : List ERow) : List ERow :=
  l.filter (fun e => decide (0 < e.day_deduction))

/-- The summary group key `(employee_id, employee_name, month)` of
line 171; `month` is the calendar month of `date` (line 76).  Pandas
drops a row from the grouped aggregation when a key component is NaN. -/
def summaryKeyOf (e : ERow) : Option (String × String × Period) :=
  match e.row.inp.employee_id, e.row.inp.date with
  | some id, some d => some (id, e.row.inp.employee_name, d.period)
  | _, _ => none

/-- Distinct summary keys among the deduction rows. -/
def summaryKeys (l : List ERow) : List (String × String × Period) :=
  ((deductionRows l).filterMap summaryKeyOf).dedup

/-- The dates of one summary group's deduction rows, in row order. -/
def groupDatesFor (l : List ERow) (k : String × String × Period) : List Date :=
  ((deductionRows l).filter (fun e => decide (summaryKeyOf e = some k))).filterMap
    (fun e => e.row.inp.date)

/-- The `deduction_dates` cell of one summary group:
`lambda x: ', '.join(x)` over the formatted dates (line 173). -/
def summaryDatesFor (l : List ERow) (k : String × String × Period) : String :=
  joinComma ((groupDatesFor l k).map formatDate)

/-- The `(key, deduction_dates)` columns of the `Employee_Summary` table
(lines 170-191), one row per distinct group key. -/
def summaryTable (l : List ERow) : List ((String × String × Period) × String) :=
  (summaryKeys l).map (fun k => (k, summaryDatesFor l k))

/-- Association lookup with decidable key equality. -/
def tableLookup {κ β : Type} [DecidableEq κ] (k : κ) : List (κ × β) → Option β
  | [] => none
  | (k0, v) :: rest => if k = k0 then some v else tableLookup k rest

/-- Date comparison (year, then month, then day). -/
def dateLE (d e : Date) : Bool :=
  decide (d.year < e.year) ||
  (decide (d.year = e.year) &&
    (decide (d.month < e.month) ||
      (decide (d.month = e.month) && decide (d.day ≤ e.day))))

/-- Insertion into a date-sorted list. -/
def insertByDate (d : Date) : List Date → List Date
  | [] => [d]
  | x :: xs => if dateLE d x then d :: x :: xs else x :: insertByDate d xs

/-- Insertion sort by date. -/
def sortDates : List Date → List Date
  | [] => []
  | x :: xs => insertByDate x (sortDates xs)

/-- The deduction-dates cell as the specification describes it: the
group's dates de-duplicated, sorted, formatted `DD/MM/YYYY` and
comma-joined.  This definition follows the spec wording and exists only
to be compared with `summaryDatesFor`, the cell the code computes. -/
def specSortedDedupJoin (ds : List Date) : String :=
  joinComma ((sortDates ds.dedup).map formatDate)

/-- The canonical columns the specification lists as required
(`employee_id`, `employee_name`, `designation`, `date`, `punch_in_raw`,
`punch_out_raw`, `worked_duration`, `attendance_status`). -/
def requiredColumns : List String :=
  ["employee_id", "employee_name", "designation", "date",
   "punch_in_raw", "punch_out_raw", "worked_duration", "attendance_status"]

/-- The canonical columns `process_attendance` actually subscripts, in
first-access order (lines 38, 45, 46, 57, 58, 72, 171).  A missing one
raises a `KeyError` naming it at its first access; `designation` is
renamed (line 25) but never accessed. -/
def accessedColumns : List String :=
  ["attendance_status", "date", "employee_id",
   "punch_in_raw", "punch_out_raw", "worked_duration", "employee_name"]

instance {α β : Type} [DecidableEq α] [DecidableEq β] : DecidableEq (Except α β) := fun x y =>
  match x, y with
  | .error a, .error b =>
    if h : a = b then .isTrue (by rw [h])
    else .isFalse (fun hc => h (Except.error.inj hc))
  | .ok a, .ok b =>
    if h : a = b then .isTrue (by rw [h])
    else .isFalse (fun hc => h (Except.ok.inj hc))
  | .error _, .ok _ => .isFalse (fun hc => Except.noConfusion hc)
  | .ok _, .error _ => .isFalse (fun hc => Except.noConfusion hc)

/-- Column presence check: the first accessed column absent from the
table aborts the run with an error naming it, before any output exists. -/
def checkColumns (cols : List String) : Except String Unit :=
  match accessedColumns.find? (fun c => !cols.contains c) with
  | some c => .error c
  | none => .ok ()

/-- The run at the table level: the column accesses either raise (no
output tables at all) or the full pipeline output is produced. -/
def processTable (cols : List String) (rows : List InputRow) : Except String (List ERow) :=
  match checkColumns cols with
  | .error c => .error c
  | .ok _ => .ok (pipeline rows)

lemma den_cast_ne {q : Rat} : ((q.den : Rat)) ≠ 0 :=
  Nat.cast_ne_zero.mpr q.den_nz

lemma num_eq_mul_den (q : Rat) : ((q.num : Rat)) = q * (q.den : Rat) :=
  (div_eq_iff den_cast_ne).mp (Rat.num_div_den q)

lemma ratAdd_eq (a b : Rat) : ratAdd a b = a + b := by
  rw [ratAdd, Rat.divInt_eq_div]
  push_cast
  rw [div_eq_iff (mul_ne_zero den_cast_ne den_cast_ne), num_eq_mul_den a, num_eq_mul_den b]
  ring

lemma ratSub_eq (a b : Rat) : ratSub a b = a - b := by
  rw [ratSub, Rat.divInt_eq_div]
  push_cast
  rw [div_eq_iff (mul_ne_zero den_cast_ne den_cast_ne), num_eq_mul_den a, num_eq_mul_den b]
  ring

lemma ratDivNat_eq (a : Rat) (n : Nat) : ratDivNat a n = a / (n : Rat) := by
  rw [ratDivNat, Rat.divInt_eq_div]
  push_cast
  rw [← div_div, Rat.num_div_den]

lemma ratSum_eq (l : List Rat) : ratSum l = l.sum := by
  induction l with
  | nil => rfl
  | cons x xs ih =>
    rw [List.sum_cons, ← ih, ratSum, List.foldr_cons, ratAdd_eq]
    rfl

lemma divInt_one_two : Rat.divInt 1 2 = 1 / 2 := by
  rw [Rat.divInt_eq_div]
  norm_num

/-! Helper lemmas about the grouped cumulative counts. -/

lemma keyCount_append {α K : Type} [DecidableEq K] (keyOf : α → Option K) (flag : α → Bool)
    (k : K) (l₁ l₂ : List α) :
    keyCount keyOf flag k (l₁ ++ l₂) = keyCount keyOf flag k l₁ + keyCount keyOf flag k l₂ := by
  simp [keyCount, List.countP_append]

lemma keyCount_snoc {α K : Type} [DecidableEq K] (keyOf : α → Option K) (flag : α → Bool)
    (k : K) (l : List α) (r : α) :
    keyCount keyOf flag k (l ++ [r]) =
      keyCount keyOf flag k l + (if decide (keyOf r = some k) && flag r then 1 else 0) := by
  simp [keyCount, List.countP_append, List.countP_cons]

lemma length_cumsumByKey {α K : Type} [DecidableEq K] (keyOf : α → Option K) (flag : α → Bool) :
    ∀ (rows : List α) (st : List (K × Nat)),
      (cumsumByKey keyOf flag rows st).length = rows.length := by
  intro rows
  induction rows with
  | nil => intro st; rfl
  | cons r rs ih =>
    intro st
    cases hk : keyOf r <;> simp [cumsumByKey, hk, ih]

lemma cumsumByKey_getD {α K : Type} [DecidableEq K] [Inhabited α]
    (keyOf : α → Option K) (flag : α → Bool) (rows : List α) :
    ∀ (st : List (K × Nat)) (prior : List α),
      (∀ k, getCount st k = keyCount keyOf flag k prior) →
      ∀ i, i < rows.length →
        (cumsumByKey keyOf flag rows st).getD i none =
          (keyOf (rows.getD i default)).map
            (fun k => keyCount keyOf flag k (prior ++ rows.take (i + 1))) := by
  induction rows with
  | nil => intro st prior _ i hi; simp at hi
  | cons r rs ih =>
    intro st prior hst i hi
    cases hk : keyOf r with
    | none =>
      have hinv : ∀ k, getCount st k = keyCount keyOf flag k (prior ++ [r]) := by
        intro k
        rw [keyCount_snoc, hk]
        simp [hst k]
      cases i with
      | zero => simp [cumsumByKey, hk]
      | succ i =>
        have hrec := ih st (prior ++ [r]) hinv i (by simpa using hi)
        simp only [cumsumByKey, hk, List.getD_cons_succ] at hrec ⊢
        rw [hrec, List.take_succ_cons, List.append_assoc]
        simp only [List.singleton_append]
    | some k0 =>
      have hbit : keyCount keyOf flag k0 (prior ++ [r]) =
          getCount st k0 + (if flag r then 1 else 0) := by
        rw [keyCount_snoc, hk, hst k0]
        simp
      cases i with
      | zero =>
        simp only [cumsumByKey, hk, List.getD_cons_zero]
        simp [hbit]
      | succ i =>
        have hinv : ∀ k, getCount ((k0, getCount st k0 + (if flag r then 1 else 0)) :: st) k =
            keyCount keyOf flag k (prior ++ [r]) := by
          intro k
          by_cases h : k = k0
          · subst h
            rw [getCount, if_pos rfl, hbit]
          · rw [getCount, if_neg h, keyCount_snoc, hk, hst k]
            have : (some k0 = some k) = False := by simp [Ne.symm h]
            simp [this]
        have hrec := ih _ (prior ++ [r]) hinv i (by simpa using hi)
        simp only [cumsumByKey, hk, List.getD_cons_succ] at hrec ⊢
        rw [hrec, List.take_succ_cons, List.append_assoc]
        simp only [List.singleton_append]

lemma keyCount_take_le {α K : Type} [DecidableEq K] (keyOf : α → Option K) (flag : α → Bool)
    (k : K) (l : List α) {i j : Nat} (h : i ≤ j) :
    keyCount keyOf flag k (l.take i) ≤ keyCount keyOf flag k (l.take j) := by
  have h1 : l.take i = (l.take j).take i := by
    rw [List.take_take, inf_eq_left.mpr h]
  calc keyCount keyOf flag k (l.take i)
      = keyCount keyOf flag k ((l.take j).take i) := by rw [h1]
    _ ≤ keyCount keyOf flag k ((l.take j).take i) +
          keyCount keyOf flag k ((l.take j).drop i) := Nat.le_add_right _ _
    _ = keyCount keyOf flag k (l.take j) := by
          rw [← keyCount_append, List.take_append_drop]

lemma getD_map_of_lt {α β : Type} (f : α → β) (l : List α) (i : Nat) (d : β) (d0 : α)
    (h : i < l.length) :
    (l.map f).getD i d = f (l.getD i d0) := by
  rw [List.getD_eq_getElem _ _ (by simpa using h), List.getD_eq_getElem _ _ h,
    List.getElem_map]

/-- Claim C3: within every `(employee_id, cycle_month)` group, taken in
original row order, `grace_count` at a row equals the number of
`within_grace` rows of that group up to and including it, `flex_count`
counts `flex_late` likewise, the counts are monotonically non-decreasing
along the group (the counting is per key, so a new cycle restarts from
its own rows only), and `grace_violation`/`flex_violation` are exactly
`count > 4` / `count > 5`. -/
theorem grace_flex_running_counts (rows : List InputRow) (k : String × Period)
    (i j : Nat) (hij : i ≤ j) (hj : j < rows.length)
    (hki : cycleKey (rows.getD i default) = some k)
    (hkj : cycleKey (rows.getD j default) = some k) :
    (graceCounts rows).getD i none =
      some (keyCount cycleKey withinGrace k (rows.take (i + 1))) ∧
    (flexCounts rows).getD i none =
      some (keyCount cycleKey flexLate k (rows.take (i + 1))) ∧
    (graceCounts rows).getD j none =
      some (keyCount cycleKey withinGrace k (rows.take (j + 1))) ∧
    (flexCounts rows).getD j none =
      some (keyCount cycleKey flexLate k (rows.take (j + 1))) ∧
    keyCount cycleKey withinGrace k (rows.take (i + 1)) ≤
      keyCount cycleKey withinGrace k (rows.take (j + 1)) ∧
    keyCount cycleKey flexLate k (rows.take (i + 1)) ≤
      keyCount cycleKey flexLate k (rows.take (j + 1)) ∧
    (graceViolationCol rows).getD i false =
      decide (4 < keyCount cycleKey withinGrace k (rows.take (i + 1))) ∧
    (flexViolationCol rows).getD i false =
      decide (5 < keyCount cycleKey flexLate k (rows.take (i + 1))) := by
  have hi : i < rows.length := lt_of_le_of_lt hij hj
  have hempty : ∀ k2 : String × Period,
      getCount ([] : List ((String × Period) × Nat)) k2 =
        keyCount cycleKey withinGrace k2 ([] : List InputRow) := fun _ => rfl
  have hempty2 : ∀ k2 : String × Period,
      getCount ([] : List ((String × Period) × Nat)) k2 =
        keyCount cycleKey flexLate k2 ([] : List InputRow) := fun _ => rfl
  have hg_i := cumsumByKey_getD cycleKey withinGrace rows [] [] hempty i hi
  have hg_j := cumsumByKey_getD cycleKey withinGrace rows [] [] hempty j hj
  have hf_i := cumsumByKey_getD cycleKey flexLate rows [] [] hempty2 i hi
  have hf_j := cumsumByKey_getD cycleKey flexLate rows [] [] hempty2 j hj
  rw [hki] at hg_i hf_i
  rw [hkj] at hg_j hf_j
  simp only [List.nil_append, Option.map_some] at hg_i hg_j hf_i hf_j
  have hgC : (graceCounts rows).getD i none =
      some (keyCount cycleKey withinGrace k (rows.take (i + 1))) := hg_i
  have hfC : (flexCounts rows).getD i none =
      some (keyCount cycleKey flexLate k (rows.take (i + 1))) := hf_i
  refine ⟨hgC, hfC, hg_j, hf_j, keyCount_take_le _ _ _ _ (by omega),
    keyCount_take_le _ _ _ _ (by omega), ?_, ?_⟩
  · rw [graceViolationCol,
      getD_map_of_lt (optGT 4) (graceCounts rows) i false none
        (by rw [graceCounts, length_cumsumByKey]; exact hi),
      hgC]
    rfl
  · rw [flexViolationCol,
      getD_map_of_lt (optGT 5) (flexCounts rows) i false none
        (by rw [flexCounts, length_cumsumByKey]; exact hi),
      hfC]
    rfl

/-- Concrete instance of `grace_flex_running_counts`: two rows of one
employee in one cycle, both within grace. -/
theorem grace_flex_running_counts_witness :
    (graceCounts [⟨some "E", "N", some ⟨2024, 5, 25⟩, some 610, some 1210, none, "P"⟩,
        ⟨some "E", "N", some ⟨2024, 5, 26⟩, some 610, some 1210, none, "P"⟩]).getD 0 none =
      some (keyCount cycleKey withinGrace ("E", ⟨2024, 5⟩)
        ([⟨some "E", "N", some ⟨2024, 5, 25⟩, some 610, some 1210, none, "P"⟩,
          ⟨some "E", "N", some ⟨2024, 5, 26⟩, some 610, some 1210, none, "P"⟩].take 1)) ∧
    (flexCounts [⟨some "E", "N", some ⟨2024, 5, 25⟩, some 610, some 1210, none, "P"⟩,
        ⟨some "E", "N", some ⟨2024, 5, 26⟩, some 610, some 1210, none, "P"⟩]).getD 0 none =
      some (keyCount cycleKey flexLate ("E", ⟨2024, 5⟩)
        ([⟨some "E", "N", some ⟨2024, 5, 25⟩, some 610, some 1210, none, "P"⟩,
          ⟨some "E", "N", some ⟨2024, 5, 26⟩, some 610, some 1210, none, "P"⟩].take 1)) ∧
    (graceCounts [⟨some "E", "N", some ⟨2024, 5, 25⟩, some 610, some 1210, none, "P"⟩,
        ⟨some "E", "N", some ⟨2024, 5, 26⟩, some 610, some 1210, none, "P"⟩]).getD 1 none =
      some (keyCount cycleKey withinGrace ("E", ⟨2024, 5⟩)
        ([⟨some "E", "N", some ⟨2024, 5, 25⟩, some 610, some 1210, none, "P"⟩,
          ⟨some "E", "N", some ⟨2024, 5, 26⟩, some 610, some 1210, none, "P"⟩].take 2)) ∧
    (flexCounts [⟨some "E", "N", some ⟨2024, 5, 25⟩, some 610, some 1210, none, "P"⟩,
        ⟨some "E", "N", some ⟨2024, 5, 26⟩, some 610, some 1210, none, "P"⟩]).getD 1 none =
      some (keyCount cycleKey flexLate ("E", ⟨2024, 5⟩)
        ([⟨some "E", "N", some ⟨2024, 5, 25⟩, some 610, some 1210, none, "P"⟩,
          ⟨some "E", "N", some ⟨2024, 5, 26⟩, some 610, some 1210, none, "P"⟩].take 2)) ∧
    keyCount cycleKey withinGrace ("E", ⟨2024, 5⟩)
        ([⟨some "E", "N", some ⟨2024, 5, 25⟩, some 610, some 1210, none, "P"⟩,
          ⟨some "E", "N", some ⟨2024, 5, 26⟩, some 610, some 1210, none, "P"⟩].take 1) ≤
      keyCount cycleKey withinGrace ("E", ⟨2024, 5⟩)
        ([⟨some "E", "N", some ⟨2024, 5, 25⟩, some 610, some 1210, none, "P"⟩,
          ⟨some "E", "N", some ⟨2024, 5, 26⟩, some 610, some 1210, none, "P"⟩].take 2) ∧
    keyCount cycleKey flexLate ("E", ⟨2024, 5⟩)
        ([⟨some "E", "N", some ⟨2024, 5, 25⟩, some 610, some 1210, none, "P"⟩,
          ⟨some "E", "N", some ⟨2024, 5, 26⟩, some 610, some 1210, none, "P"⟩].take 1) ≤
      keyCount cycleKey flexLate ("E", ⟨2024, 5⟩)
        ([⟨some "E", "N", some ⟨2024, 5, 25⟩, some 610, some 1210, none, "P"⟩,
          ⟨some "E", "N", some ⟨2024, 5, 26⟩, some 610, some 1210, none, "P"⟩].take 2) ∧
    (graceViolationCol [⟨some "E", "N", some ⟨2024, 5, 25⟩, some 610, some 1210, none, "P"⟩,
        ⟨some "E", "N", some ⟨2024, 5, 26⟩, some 610, some 1210, none, "P"⟩]).getD 0 false =
      decide (4 < keyCount cycleKey withinGrace ("E", ⟨2024, 5⟩)
        ([⟨some "E", "N", some ⟨2024, 5, 25⟩, some 610, some 1210, none, "P"⟩,
          ⟨some "E", "N", some ⟨2024, 5, 26⟩, some 610, some 1210, none, "P"⟩].take 1)) ∧
    (flexViolationCol [⟨some "E", "N", some ⟨2024, 5, 25⟩, some 610, some 1210, none, "P"⟩,
        ⟨some "E", "N", some ⟨2024, 5, 26⟩, some 610, some 1210, none, "P"⟩]).getD 0 false =
      decide (5 < keyCount cycleKey flexLate ("E", ⟨2024, 5⟩)
        ([⟨some "E", "N", some ⟨2024, 5, 25⟩, some 610, some 1210, none, "P"⟩,
          ⟨some "E", "N", some ⟨2024, 5, 26⟩, some 610, some 1210, none, "P"⟩].take 1)) :=
  grace_flex_running_counts _ ("E", ⟨2024, 5⟩) 0 1 (by omega) (by decide)
    (by decide) (by decide)

/-! Calendar-shift lemmas for the cycle month. -/

lemma subDays_of_lt (y : Int) (m : Nat) :
    ∀ (k d : Nat), k < d → subDays ⟨y, m, d⟩ k = ⟨y, m, d - k⟩ := by
  intro k
  induction k with
  | zero => intro d _; rfl
  | succ n ih =>
    intro d hd
    have h1 : 1 < d := by omega
    rw [subDays, predDay]
    simp only [h1, if_true]
    rw [ih (d - 1) (by omega)]
    congr 1
    omega

lemma subDays_succ_outer (d : Date) : ∀ n, subDays d (n + 1) = predDay (subDays d n) := by
  intro n
  induction n generalizing d with
  | zero => rfl
  | succ n ih =>
    calc subDays d (n + 2) = subDays (predDay d) (n + 1) := rfl
      _ = predDay (subDays (predDay d) n) := ih (predDay d)
      _ = predDay (subDays d (n + 1)) := rfl

/-- Claim C8: `cycle_month` is the calendar month of the date shifted
back 24 days; day 25 of month M stays in cycle M, day 24 of month M
falls in cycle M−1 (with the year wrapping for January). -/
theorem month_cycle_day_shift (d : Date) :
    monthCycle d = (subDays d 24).period ∧
    (d.day = 25 → monthCycle d = d.period) ∧
    (d.day = 24 → monthCycle d = prevPeriod d.period) := by
  obtain ⟨y, m, dd⟩ := d
  refine ⟨rfl, ?_, ?_⟩
  · intro h25
    simp only at h25
    subst h25
    rw [monthCycle, subDays_of_lt y m 24 25 (by omega)]
    rfl
  · intro h24
    simp only at h24
    subst h24
    rw [monthCycle, show (24 : Nat) = 23 + 1 from rfl, subDays_succ_outer,
      subDays_of_lt y m 23 24 (by omega)]
    by_cases hm : 1 < m <;> simp [predDay, prevPeriod, Date.period, hm]

/-- Concrete instance of `month_cycle_day_shift`: 25 May 2024 is in cycle
2024-05, 24 May 2024 is in cycle 2024-04. -/
theorem month_cycle_day_shift_witness :
    monthCycle ⟨2024, 5, 25⟩ = Date.period ⟨2024, 5, 25⟩ ∧
    monthCycle ⟨2024, 5, 24⟩ = prevPeriod (Date.period ⟨2024, 5, 24⟩) :=
  ⟨(month_cycle_day_shift ⟨2024, 5, 25⟩).2.1 rfl,
   (month_cycle_day_shift ⟨2024, 5, 24⟩).2.2 rfl⟩

/-! Deduction rules 1 and 2 (claim C1). -/

/-- Rows of employee E1: five within-grace arrivals (10:10) on
25-29 May 2024, then a 11:10 arrival with one worked hour on 30 May. -/
def c1rows : List InputRow :=
  [⟨some "E1", "N", some ⟨2024, 5, 25⟩, some 610, some 1150, none, "P"⟩,
   ⟨some "E1", "N", some ⟨2024, 5, 26⟩, some 610, some 1150, none, "P"⟩,
   ⟨some "E1", "N", some ⟨2024, 5, 27⟩, some 610, some 1150, none, "P"⟩,
   ⟨some "E1", "N", some ⟨2024, 5, 28⟩, some 610, some 1150, none, "P"⟩,
   ⟨some "E1", "N", some ⟨2024, 5, 29⟩, some 610, some 1150, none, "P"⟩,
   ⟨some "E1", "N", some ⟨2024, 5, 30⟩, some 670, some 730, none, "P"⟩]

/-- Claim C1 is false on the code: the sixth row of `c1rows` satisfies
rule 1's condition (`mask_full`), rule 4's condition (`mask_half2`) is
false, and yet its `half_day` is 0.5 — rule 2 fired on a record where
rule 1 fired, because lines 106-110 apply the two masks independently,
with no else. -/
theorem rule_one_and_two_both_fire_cex :
    maskFull ((mkERows c1rows).getD 5 default).row = true ∧
    maskHalf2 ((mkERows c1rows).getD 5 default).row = false ∧
    ((mkERows c1rows).getD 5 default).half_day = Rat.divInt 1 2 ∧
    ((mkERows c1rows).getD 5 default).full_day = 1 := by decide

/-- Claim C1 amended: rules 1 and 2 are independent masks, not an
if/else; on any record where both conditions hold the code sets
`full_day = 1.0` and also `half_day = 0.5`, and `day_deduction` is
still 1.0 through the max. -/
theorem rules_one_two_independent (r : Row) (h1 : maskFull r = true) (h2 : maskHalf r = true) :
    (mkERow r).full_day = 1 ∧ (mkERow r).half_day = 1 / 2 ∧
    (mkERow r).day_deduction = 1 := by
  have hf : fullDay0 r = 1 := by rw [fullDay0, h1]; rfl
  have hh : halfDay0 r = 1 / 2 := by rw [halfDay0, h2, divInt_one_two]; rfl
  refine ⟨hf, hh, ?_⟩
  show max (halfDay0 r) (fullDay0 r) = 1
  rw [hf, hh]
  exact max_eq_right (by norm_num)

/-- Concrete instance of `rules_one_two_independent`. -/
theorem rules_one_two_independent_witness :
    (mkERow ⟨⟨some "E", "N", some ⟨2024, 5, 30⟩, some 670, some 730, none, "P"⟩,
        some 5, some 0⟩).full_day = 1 ∧
    (mkERow ⟨⟨some "E", "N", some ⟨2024, 5, 30⟩, some 670, some 730, none, "P"⟩,
        some 5, some 0⟩).half_day = 1 / 2 ∧
    (mkERow ⟨⟨some "E", "N", some ⟨2024, 5, 30⟩, some 670, some 730, none, "P"⟩,
        some 5, some 0⟩).day_deduction = 1 :=
  rules_one_two_independent _ (by decide) (by decide)

/-! Payable day (claim C4). -/

/-- Claim C4: `payable_day` is 1.0 for WO, 0.0 for A,
`clip(1 - day_deduction, 0, 1)` for P and 0.0 for any other status, and
it always lies in `[0, 1]`. -/
theorem payable_day_cases_bounds (e : ERow) :
    payableDay e =
      (if normStatus e.row.inp.attendance_status = "WO" then 1
       else if normStatus e.row.inp.attendance_status = "A" then 0
       else if normStatus e.row.inp.attendance_status = "P" then
         min (max (1 - e.day_deduction) 0) 1
       else 0) ∧
    0 ≤ payableDay e ∧ payableDay e ≤ 1 := by
  refine ⟨?_, ?_, ?_⟩
  · simp only [payableDay]
    by_cases h1 : normStatus e.row.inp.attendance_status = "WO"
    · rw [h1]
      simp only [if_neg (by decide : ¬ ("WO" : String) = "P"),
        if_neg (by decide : ¬ ("WO" : String) = "A"),
        if_pos (rfl : ("WO" : String) = "WO")]
      norm_num [max_def, min_def]
    · by_cases h2 : normStatus e.row.inp.attendance_status = "A"
      · rw [h2]
        simp only [if_neg (by decide : ¬ ("A" : String) = "P"),
          if_neg (by decide : ¬ ("A" : String) = "WO"),
          if_pos (rfl : ("A" : String) = "A")]
        norm_num [max_def, min_def]
      · by_cases h3 : normStatus e.row.inp.attendance_status = "P"
        · rw [h3, ratSub_eq]
          simp only [if_pos (rfl : ("P" : String) = "P"),
            if_neg (by decide : ¬ ("P" : String) = "WO"),
            if_neg (by decide : ¬ ("P" : String) = "A"), if_true]
        · simp only [if_neg h1, if_neg h2, if_neg h3]
          norm_num [max_def, min_def]
  · simp only [payableDay]
    exact le_min (le_max_right _ _) zero_le_one
  · simp only [payableDay]
    exact min_le_right _ _

/-! Working-hours normalization (claim C7). -/

/-- A row with no punches whose `DURATION` cell parses to a negative
duration (`pd.to_timedelta("-01:00:00")` is minus one hour). -/
def c7neg : InputRow :=
  ⟨some "E3", "C", some ⟨2024, 5, 1⟩, none, none, some (Rat.divInt (-1) 1), "P"⟩

/-- Claim C7 is false on the code: on the `reported_duration` fallback
path the parsed value passes through unchanged, and line 74 only
replaces NaN/±infinity, so a negative reported duration yields a
negative `working_hours`. -/
theorem working_hours_negative_fallback_cex :
    workingHours c7neg = Rat.divInt (-1) 1 ∧ workingHours c7neg < 0 := by decide

/-- Claim C7 amended: `working_hours` is always finite (the model's
nonfinite values are the missing cases, which terminate in 0); on the
punch-timestamp path it is ≥ 0 (times of day are below 24h and the
overnight correction applies), and it is 0 when both sources are
missing; but the fallback path does not clamp a negative parsed
duration. -/
theorem working_hours_nonneg_punch_path (r : InputRow)
    (hin : r.punch_in_time.all (fun t => decide (t < 1440)) = true) :
    ((punchPair r).isSome = true → 0 ≤ workingHours r) ∧
    (punchPair r = none → r.worked_duration = none → workingHours r = 0) := by
  have hcases : punchPair r = none ∨
      ∃ pin pout, r.punch_in_time = some pin ∧ r.punch_out_time = some pout ∧
        punchPair r = some (pin, if pout < pin then pout + 1440 else pout) := by
    rcases hd : r.date with _ | d
    · left; simp [punchPair, hd]
    · rcases ht1 : r.punch_in_time with _ | p1
      · left; simp [punchPair, hd, ht1]
      · rcases ht2 : r.punch_out_time with _ | p2
        · left; simp [punchPair, hd, ht1, ht2]
        · right; exact ⟨p1, p2, rfl, rfl, by simp [punchPair, hd, ht1, ht2]⟩
  constructor
  · intro hp
    rcases hcases with hpp | ⟨pin, pout, ht1, ht2, hpp⟩
    · rw [hpp] at hp; simp at hp
    · have hpin : pin < 1440 := by
        rw [ht1, Option.all_some] at hin
        exact of_decide_eq_true hin
      have hwh : workingHours r =
          Rat.divInt ((((if pout < pin then pout + 1440 else pout) : Nat) : Int) - (pin : Int))
            60 := by
        simp only [workingHours, hpp]
      rw [hwh, Rat.divInt_eq_div]
      apply div_nonneg _ (by norm_num)
      have hle : pin ≤ (if pout < pin then pout + 1440 else pout) := by
        split
        · exact Nat.le_trans (Nat.le_of_lt hpin) (Nat.le_add_left 1440 pout)
        · next hlt => exact Nat.le_of_not_lt hlt
      have hle2 : ((pin : Nat) : Int) ≤ (((if pout < pin then pout + 1440 else pout) : Nat) : Int) :=
        Nat.cast_le.mpr hle
      exact Int.cast_nonneg.mpr (sub_nonneg.mpr hle2)
  · intro hp hw
    simp only [workingHours, hp, hw]

/-- Concrete instance of `working_hours_nonneg_punch_path`: an overnight
shift (punch out before punch in) still gets non-negative hours, and a
row with neither punches nor a duration gets 0. -/
theorem working_hours_nonneg_punch_path_witness :
    (0 : Rat) ≤ workingHours ⟨some "E", "N", some ⟨2024, 5, 1⟩, some 600, some 500, none, "P"⟩ ∧
    workingHours ⟨some "E", "N", some ⟨2024, 5, 1⟩, none, none, none, "P"⟩ = 0 :=
  ⟨(working_hours_nonneg_punch_path
      ⟨some "E", "N", some ⟨2024, 5, 1⟩, some 600, some 500, none, "P"⟩ (by decide)).1
      (by decide),
   (working_hours_nonneg_punch_path
      ⟨some "E", "N", some ⟨2024, 5, 1⟩, none, none, none, "P"⟩ (by decide)).2 rfl rfl⟩

/-! Membership structure of the average-hours override pass. -/

lemma flexLateE_zeroDeductions (e : ERow) : flexLateE (zeroDeductions e) = flexLateE e := rfl

lemma empOf_zeroDeductions (e : ERow) : empOf (zeroDeductions e) = empOf e := rfl

lemma mem_zeroFirstFlex {e : ERow} :
    ∀ (n : Nat) (g : List ERow), e ∈ zeroFirstFlex n g →
      ∃ e0 ∈ g, e = e0 ∨ e = zeroDeductions e0 := by
  intro n g
  induction g generalizing n with
  | nil =>
    intro h
    simp [zeroFirstFlex] at h
  | cons e1 es ih =>
    intro h
    cases n with
    | zero =>
      simp only [zeroFirstFlex] at h
      exact ⟨e, h, Or.inl rfl⟩
    | succ n =>
      simp only [zeroFirstFlex] at h
      by_cases hf : flexLateE e1
      · rw [if_pos hf] at h
        rcases List.mem_cons.mp h with rfl | h
        · exact ⟨e1, List.mem_cons_self e1 es, Or.inr rfl⟩
        · obtain ⟨e0, he0, hor⟩ := ih n h
          exact ⟨e0, List.mem_cons_of_mem e1 he0, hor⟩
      · rw [if_neg hf] at h
        rcases List.mem_cons.mp h with rfl | h
        · exact ⟨e, List.mem_cons_self e es, Or.inl rfl⟩
        · obtain ⟨e0, he0, hor⟩ := ih (n + 1) h
          exact ⟨e0, List.mem_cons_of_mem e1 he0, hor⟩

lemma mem_overrideGroup {e : ERow} {g : List ERow} (h : e ∈ overrideGroup g) :
    ∃ e0 ∈ g, e = e0 ∨ e = zeroDeductions e0 := by
  rw [overrideGroup] at h
  split at h
  · exact mem_zeroFirstFlex 5 g h
  · exact ⟨e, h, Or.inl rfl⟩

lemma mem_applyAverageRule {e : ERow} {l : List ERow} (h : e ∈ applyAverageRule l) :
    ∃ e0 ∈ l, e = e0 ∨ e = zeroDeductions e0 := by
  rw [applyAverageRule] at h
  obtain ⟨k, -, hk⟩ := List.mem_flatMap.mp h
  obtain ⟨e0, he0, hor⟩ := mem_overrideGroup hk
  exact ⟨e0, List.mem_of_mem_filter he0, hor⟩

/-! The deduction-reason text (claim C5). -/

lemma late_mem_reasonList (e : ERow) (h : lateBeyondGrace e.row.inp = true) :
    "Late beyond grace" ∈ reasonList e := by
  rw [reasonList, if_pos h]
  simp

lemma hours_lt8_mem_reasonList (e : ERow) (h : workingHours e.row.inp < 8) :
    "Working hours < 8" ∈ reasonList e := by
  rw [reasonList, if_pos h]
  simp

lemma hours_between_mem_reasonList (e : ERow) (h8 : 8 ≤ workingHours e.row.inp)
    (h9 : workingHours e.row.inp < 9) :
    "Working hours between 8–9" ∈ reasonList e := by
  rw [reasonList, if_neg (not_lt.mpr h8), if_pos (And.intro h8 h9)]
  simp

lemma reasonList_all_pos (e : ERow) : ∀ s ∈ reasonList e, 0 < s.length := by
  intro s hs
  simp only [reasonList, List.mem_append] at hs
  rcases hs with ((h | h) | h) | h
  · split at h
    · rw [List.mem_singleton] at h; subst h; decide
    · simp at h
  · split at h
    · rw [List.mem_singleton] at h; subst h; decide
    · simp at h
  · split at h
    · rw [List.mem_singleton] at h; subst h; decide
    · split at h
      · rw [List.mem_singleton] at h; subst h; decide
      · simp at h
  · split at h
    · rw [List.mem_singleton] at h; subst h; decide
    · simp at h

lemma joinComma_ne_empty :
    ∀ (l : List String), l ≠ [] → (∀ s ∈ l, 0 < s.length) → joinComma l ≠ "" := by
  intro l hne hall
  match l, hne with
  | [x], _ =>
    have hx := hall x (by simp)
    show joinComma [x] ≠ ""
    intro hc
    rw [show joinComma [x] = x from rfl] at hc
    rw [hc] at hx
    simp at hx
  | x :: y :: ys, _ =>
    have hx := hall x (by simp)
    intro hc
    have hlen := congrArg String.length hc
    rw [show joinComma (x :: y :: ys) = x ++ ", " ++ joinComma (y :: ys) from rfl,
      String.length_append, String.length_append] at hlen
    simp at hlen
    omega

/-- Claim C5: over the pipeline output, `deduction_reason` is a
non-empty string exactly when `day_deduction > 0`; rows zeroed by the
average-hours override get the empty reason. -/
theorem deduction_reason_nonempty_iff (rows : List InputRow) (e : ERow)
    (he : e ∈ pipeline rows) :
    deductionReason e ≠ "" ↔ 0 < e.day_deduction := by
  rw [pipeline] at he
  obtain ⟨e0, he0, hor⟩ := mem_applyAverageRule he
  rw [mkERows] at he0
  obtain ⟨r, -, hr⟩ := List.mem_map.mp he0
  rcases hor with rfl | rfl
  · subst hr
    by_cases hd : 0 < (mkERow r).day_deduction
    · rw [deductionReason, if_pos hd]
      refine iff_of_true ?_ hd
      apply joinComma_ne_empty _ ?_ (reasonList_all_pos _)
      have hmax : 0 < max (halfDay0 r) (fullDay0 r) := hd
      rcases lt_max_iff.mp hmax with hh | hf
      · have hcond : (maskHalf r || maskHalf2 r) = true := by
          by_contra hc
          rw [halfDay0, if_neg hc] at hh
          exact lt_irrefl 0 hh
        rcases (Bool.or_eq_true _ _ ▸ hcond : _ ∨ _) with hm | hm
        · have hlate : lateBeyondGrace r.inp = true := by
            rw [maskHalf] at hm
            simp only [Bool.and_eq_true] at hm
            exact hm.1.1.2
          exact List.ne_nil_of_mem (late_mem_reasonList (mkERow r) hlate)
        · rw [maskHalf2] at hm
          simp only [Bool.and_eq_true, decide_eq_true_eq] at hm
          obtain ⟨⟨-, h8⟩, h9⟩ := hm
          exact List.ne_nil_of_mem (hours_between_mem_reasonList (mkERow r) h8 h9)
      · have hcond : (maskFull r || maskFull2 r) = true := by
          by_contra hc
          rw [fullDay0, if_neg hc] at hf
          exact lt_irrefl 0 hf
        rcases (Bool.or_eq_true _ _ ▸ hcond : _ ∨ _) with hm | hm
        · have hlate : lateBeyondGrace r.inp = true := by
            rw [maskFull] at hm
            simp only [Bool.and_eq_true] at hm
            exact hm.1.1.2
          exact List.ne_nil_of_mem (late_mem_reasonList (mkERow r) hlate)
        · rw [maskFull2] at hm
          simp only [Bool.and_eq_true, decide_eq_true_eq] at hm
          exact List.ne_nil_of_mem (hours_lt8_mem_reasonList (mkERow r) hm.2)
    · rw [deductionReason, if_neg hd]
      exact iff_of_false (by simp) hd
  · subst hr
    have h0 : ¬ (0 : Rat) < (zeroDeductions (mkERow r)).day_deduction := lt_irrefl 0
    rw [deductionReason, if_neg h0]
    exact iff_of_false (by simp) h0

/-- A one-row table: present, no punches, no duration. -/
def c5rows : List InputRow := [⟨some "E", "N", some ⟨2024, 5, 2⟩, none, none, none, "P"⟩]

/-- Concrete instance of `deduction_reason_nonempty_iff`: a present row
with zero hours gets a full-day deduction and the reason
"Working hours < 8". -/
theorem deduction_reason_nonempty_iff_witness :
    deductionReason ((pipeline c5rows).getD 0 default) ≠ "" ↔
      0 < ((pipeline c5rows).getD 0 default).day_deduction :=
  deduction_reason_nonempty_iff c5rows ((pipeline c5rows).getD 0 default) (by decide)


/-! The average-hours override: group plumbing (claims C2 and C10). -/

lemma length_zeroFirstFlex : ∀ (n : Nat) (g : List ERow), (zeroFirstFlex n g).length = g.length := by
  intro n g
  induction g generalizing n with
  | nil => cases n <;> rfl
  | cons e es ih =>
    cases n with
    | zero => rfl
    | succ n =>
      simp only [zeroFirstFlex]
      by_cases hf : flexLateE e
      · rw [if_pos hf]
        simp [ih n]
      · rw [if_neg hf]
        simp [ih (n + 1)]

lemma overrideGroup_length (g : List ERow) : (overrideGroup g).length = g.length := by
  rw [overrideGroup]
  split
  · exact length_zeroFirstFlex 5 g
  · rfl

lemma overrideGroup_nil : overrideGroup ([] : List ERow) = [] := by
  rw [overrideGroup]
  split <;> rfl

lemma overrideGroup_emp (l : List ERow) (k : String) :
    ∀ e ∈ overrideGroup (l.filter (fun x => decide (empOf x = some k))), empOf e = some k := by
  intro e he
  obtain ⟨e0, he0, hor⟩ := mem_overrideGroup he
  have h0 : empOf e0 = some k :=
    of_decide_eq_true (List.mem_filter.mp he0).2
  rcases hor with rfl | rfl
  · exact h0
  · rw [empOf_zeroDeductions]
    exact h0

lemma flatMap_single {K : Type} [DecidableEq K] :
    ∀ (ks : List K) (g : K → List ERow) (k : K), ks.Nodup → k ∈ ks →
      (∀ k2 ∈ ks, k2 ≠ k → g k2 = []) → ks.flatMap g = g k := by
  intro ks
  induction ks with
  | nil => intro g k _ hk; simp at hk
  | cons k0 ks ih =>
    intro g k hnd hk hz
    rw [List.flatMap_cons]
    by_cases h : k0 = k
    · subst h
      have hrest : ks.flatMap g = [] := by
        apply List.flatMap_eq_nil_iff.mpr
        intro k2 hk2
        exact hz k2 (List.mem_cons_of_mem k0 hk2)
          (fun hc => (List.nodup_cons.mp hnd).1 (hc ▸ hk2))
      rw [hrest, List.append_nil]
    · have h0 : g k0 = [] := hz k0 (List.mem_cons_self k0 ks) (Ne.symm (fun hc => h hc.symm))
      rw [h0, List.nil_append]
      exact ih g k (List.nodup_cons.mp hnd).2
        ((List.mem_cons.mp hk).resolve_left (fun hc => h hc.symm)) 
        (fun k2 hk2 => hz k2 (List.mem_cons_of_mem k0 hk2))

lemma not_mem_groupKeys {l : List ERow} {k : String} (hk : k ∉ groupKeys l) :
    l.filter (fun e => decide (empOf e = some k)) = [] := by
  apply List.filter_eq_nil_iff.mpr
  intro e he hc
  apply hk
  rw [groupKeys, List.mem_dedup]
  exact List.mem_filterMap.mpr ⟨e, he, of_decide_eq_true hc⟩

/-- Restricting the override pass to one employee id is the same as
running `apply_average_rule` on that employee's rows. -/
lemma filter_applyAverageRule (l : List ERow) (k : String) :
    (applyAverageRule l).filter (fun e => decide (empOf e = some k)) =
      overrideGroup (l.filter (fun e => decide (empOf e = some k))) := by
  rw [applyAverageRule, List.filter_flatMap]
  by_cases hk : k ∈ groupKeys l
  · have hpick := flatMap_single (groupKeys l)
      (fun k2 => (overrideGroup (l.filter (fun e => decide (empOf e = some k2)))).filter
        (fun e => decide (empOf e = some k)))
      k (List.nodup_dedup _) hk ?_
    · rw [hpick]
      apply List.filter_eq_self.mpr
      intro e he
      exact decide_eq_true (overrideGroup_emp l k e he)
    · intro k2 _ hne
      apply List.filter_eq_nil_iff.mpr
      intro e he hc
      exact hne (by
        have h2 := overrideGroup_emp l k2 e he
        have h3 := of_decide_eq_true hc
        rw [h2] at h3
        exact Option.some.inj h3)
  · rw [not_mem_groupKeys hk, overrideGroup_nil]
    apply List.flatMap_eq_nil_iff.mpr
    intro k2 hk2
    apply List.filter_eq_nil_iff.mpr
    intro e he hc
    apply hk
    have h2 := overrideGroup_emp l k2 e he
    have h3 := of_decide_eq_true hc
    rw [h2] at h3
    exact (Option.some.inj h3) ▸ hk2

lemma zeroFirstFlex_filter_take :
    ∀ (n : Nat) (g : List ERow),
      ((zeroFirstFlex n g).filter flexLateE).take n =
        ((g.filter flexLateE).take n).map zeroDeductions := by
  intro n g
  induction g generalizing n with
  | nil => cases n <;> rfl
  | cons e es ih =>
    cases n with
    | zero => simp
    | succ n =>
      simp only [zeroFirstFlex]
      by_cases hf : flexLateE e
      · rw [if_pos hf]
        rw [List.filter_cons, List.filter_cons]
        simp only [flexLateE_zeroDeductions, if_pos hf]
        rw [List.take_succ_cons, List.take_succ_cons, List.map_cons, ih n]
      · rw [if_neg hf]
        rw [List.filter_cons, List.filter_cons]
        simp only [if_neg hf]
        exact ih (n + 1)

/-- Claim C2: per employee (the group key is the employee id alone, so
the budget is per employee, not per cycle), when the mean of
`working_hours` over that employee's working-day rows exceeds 9.5, the
first 5 flex-late rows of the employee, in original row order, come out
of the pipeline with `half_day`, `full_day` and `day_deduction` all 0;
and an employee with no working-day rows is left untouched (the NaN mean
fails the guard; nothing is raised — the pass is total). -/
theorem average_rule_zeroes_first_five_flex (l : List ERow) (k : String) :
    (avgHoursCond (l.filter (fun e => decide (empOf e = some k))) = true →
      ((applyAverageRule l).filter
          (fun e => decide (empOf e = some k) && flexLateE e)).take 5 =
        (((l.filter (fun e => decide (empOf e = some k))).filter flexLateE).take 5).map
          zeroDeductions ∧
      ∀ e ∈ ((applyAverageRule l).filter
          (fun e => decide (empOf e = some k) && flexLateE e)).take 5,
        e.half_day = 0 ∧ e.full_day = 0 ∧ e.day_deduction = 0) ∧
    (l.filter (fun e => decide (empOf e = some k) && workingDayE e) = [] →
      (applyAverageRule l).filter (fun e => decide (empOf e = some k)) =
        l.filter (fun e => decide (empOf e = some k))) := by
  have hsplit : (applyAverageRule l).filter
      (fun e => decide (empOf e = some k) && flexLateE e) =
      ((applyAverageRule l).filter (fun e => decide (empOf e = some k))).filter flexLateE := by
    rw [List.filter_filter]
    apply List.filter_congr
    intro e _
    exact Bool.and_comm (decide (empOf e = some k)) (flexLateE e)
  constructor
  · intro havg
    have heq : ((applyAverageRule l).filter
        (fun e => decide (empOf e = some k) && flexLateE e)).take 5 =
        (((l.filter (fun e => decide (empOf e = some k))).filter flexLateE).take 5).map
          zeroDeductions := by
      rw [hsplit, filter_applyAverageRule, overrideGroup, if_pos havg,
        zeroFirstFlex_filter_take]
    refine ⟨heq, ?_⟩
    intro e he
    rw [heq] at he
    obtain ⟨e0, -, rfl⟩ := List.mem_map.mp he
    exact ⟨rfl, rfl, rfl⟩
  · intro hw
    rw [filter_applyAverageRule, overrideGroup, if_neg ?_]
    have hfw : (l.filter (fun e => decide (empOf e = some k))).filter workingDayE = [] := by
      rw [List.filter_filter]
      rw [List.filter_congr (fun e _ =>
        Bool.and_comm (workingDayE e) (decide (empOf e = some k)))]
      exact hw
    rw [avgHoursCond]
    simp [hfw]

/-- Concrete instance of `average_rule_zeroes_first_five_flex`: one
employee with a single flex-late 10-hour day gets it zeroed; an
absent-only employee is untouched. -/
theorem average_rule_zeroes_first_five_flex_witness :
    (((applyAverageRule [⟨⟨⟨some "E", "N", some ⟨2024, 5, 2⟩, some 630, some 1230, none, "P"⟩,
        some 0, some 1⟩, Rat.divInt 1 2, 0, Rat.divInt 1 2⟩]).filter
          (fun e => decide (empOf e = some "E") && flexLateE e)).take 5 =
      ((([⟨⟨⟨some "E", "N", some ⟨2024, 5, 2⟩, some 630, some 1230, none, "P"⟩,
        some 0, some 1⟩, Rat.divInt 1 2, 0, Rat.divInt 1 2⟩].filter
          (fun e => decide (empOf e = some "E"))).filter flexLateE).take 5).map
        zeroDeductions) ∧
    ((applyAverageRule [⟨⟨⟨some "E2", "N", some ⟨2024, 5, 2⟩, none, none, none, "A"⟩,
        some 0, some 0⟩, 0, 0, 0⟩]).filter (fun e => decide (empOf e = some "E2")) =
      [⟨⟨⟨some "E2", "N", some ⟨2024, 5, 2⟩, none, none, none, "A"⟩,
        some 0, some 0⟩, 0, 0, 0⟩].filter (fun e => decide (empOf e = some "E2"))) :=
  ⟨((average_rule_zeroes_first_five_flex
      [⟨⟨⟨some "E", "N", some ⟨2024, 5, 2⟩, some 630, some 1230, none, "P"⟩,
        some 0, some 1⟩, Rat.divInt 1 2, 0, Rat.divInt 1 2⟩] "E").1 (by decide)).1,
   (average_rule_zeroes_first_five_flex
      [⟨⟨⟨some "E2", "N", some ⟨2024, 5, 2⟩, none, none, none, "A"⟩,
        some 0, some 0⟩, 0, 0, 0⟩] "E2").2 (by decide)⟩


/-! Row-count preservation (claim C10). -/

lemma length_filter_split {α : Type} (p : α → Bool) (l : List α) :
    (l.filter p).length + (l.filter (fun a => !p a)).length = l.length := by
  induction l with
  | nil => rfl
  | cons a l ih =>
    rw [List.filter_cons, List.filter_cons]
    by_cases hp : p a
    · rw [if_pos hp, if_neg (by simp [hp])]
      simp only [List.length_cons]
      omega
    · rw [if_neg hp, if_pos (by simp [hp])]
      simp only [List.length_cons]
      omega

lemma sum_filter_lengths {α K : Type} [DecidableEq K] (proj : α → Option K) :
    ∀ (ks : List K) (l : List α), ks.Nodup →
      (∀ x ∈ l, ∃ k ∈ ks, proj x = some k) →
      (List.map (fun k => (l.filter (fun x => decide (proj x = some k))).length) ks).sum =
        l.length := by
  intro ks
  induction ks with
  | nil =>
    intro l _ hcov
    cases l with
    | nil => rfl
    | cons x xs =>
      obtain ⟨k, hk, -⟩ := hcov x (List.mem_cons_self x xs)
      simp at hk
  | cons k0 ks ih =>
    intro l hnd hcov
    rw [List.map_cons, List.sum_cons]
    have hcong : ∀ k2 ∈ ks,
        (l.filter (fun x => decide (proj x = some k2))).length =
        ((l.filter (fun a => !decide (proj a = some k0))).filter
          (fun x => decide (proj x = some k2))).length := by
      intro k2 hk2
      have hne : k2 ≠ k0 := fun hc => (List.nodup_cons.mp hnd).1 (hc ▸ hk2)
      congr 1
      rw [List.filter_filter]
      apply List.filter_congr
      intro x _
      by_cases hx : proj x = some k2
      · rw [hx]
        simp [hne]
      · simp [hx]
    have hcov2 : ∀ x ∈ l.filter (fun a => !decide (proj a = some k0)),
        ∃ k ∈ ks, proj x = some k := by
      intro x hx
      obtain ⟨k, hk, hpk⟩ := hcov x (List.mem_of_mem_filter hx)
      rcases List.mem_cons.mp hk with rfl | hk2
      · have h2 := (List.mem_filter.mp hx).2
        rw [hpk] at h2
        simp at h2
      · exact ⟨k, hk2, hpk⟩
    rw [List.map_congr_left hcong,
      ih (l.filter (fun a => !decide (proj a = some k0))) (List.nodup_cons.mp hnd).2 hcov2]
    exact length_filter_split _ l

lemma mkRows_length (rows : List InputRow) : (mkRows rows).length = rows.length := by
  rw [mkRows, List.length_zipWith, List.length_zip, graceCounts, flexCounts,
    length_cumsumByKey, length_cumsumByKey]
  simp

lemma mkERows_length (rows : List InputRow) : (mkERows rows).length = rows.length := by
  rw [mkERows, List.length_map, mkRows_length]

lemma mem_mkRows_inp {rows : List InputRow} {r : Row} (h : r ∈ mkRows rows) :
    r.inp ∈ rows := by
  rw [mkRows] at h
  obtain ⟨i, hi, hgi⟩ := List.mem_iff_getElem.mp h
  rw [List.getElem_zipWith] at hgi
  rw [← hgi]
  exact List.getElem_mem _

lemma mkERows_emp (rows : List InputRow) (h : ∀ r ∈ rows, r.employee_id.isSome = true) :
    ∀ e ∈ mkERows rows, (empOf e).isSome = true := by
  intro e he
  rw [mkERows] at he
  obtain ⟨r, hr, rfl⟩ := List.mem_map.mp he
  exact h r.inp (mem_mkRows_inp hr)

lemma applyAverageRule_length (l : List ERow) (h : ∀ e ∈ l, (empOf e).isSome = true) :
    (applyAverageRule l).length = l.length := by
  rw [applyAverageRule, List.length_flatMap]
  have hmap : List.map (List.length ∘ fun k =>
      overrideGroup (l.filter (fun e => decide (empOf e = some k)))) (groupKeys l) =
      List.map (fun k => (l.filter (fun e => decide (empOf e = some k))).length)
        (groupKeys l) := by
    apply List.map_congr_left
    intro k _
    simp only [Function.comp]
    exact overrideGroup_length _
  rw [hmap]
  apply sum_filter_lengths empOf (groupKeys l) l (List.nodup_dedup _)
  intro e he
  obtain ⟨k, hk⟩ := Option.isSome_iff_exists.mp (h e he)
  exact ⟨k, List.mem_dedup.mpr (List.mem_filterMap.mpr ⟨e, he, hk⟩), hk⟩

/-- Claim C10: when every input row has an employee id, the full output
table has exactly one row per input row — the deduction stages are
row-wise column assignments and the average-hours override pass neither
adds nor removes rows.  (Pandas `groupby` would silently drop rows whose
`employee_id` is NaN, hence the hypothesis.) -/
theorem pipeline_row_count (rows : List InputRow)
    (h : ∀ r ∈ rows, r.employee_id.isSome = true) :
    (pipeline rows).length = rows.length := by
  rw [pipeline, applyAverageRule_length _ (mkERows_emp rows h), mkERows_length]

/-- A one-row table with an employee id present. -/
def c10rows : List InputRow := [⟨some "W", "N", some ⟨2024, 5, 2⟩, none, none, none, "P"⟩]

/-- Concrete instance of `pipeline_row_count`. -/
theorem pipeline_row_count_witness : (pipeline c10rows).length = c10rows.length :=
  pipeline_row_count c10rows (by decide)

/-! The summary deduction-dates cell (claim C6). -/

lemma tableLookup_map_self {κ β : Type} [DecidableEq κ] (f : κ → β) :
    ∀ (ks : List κ) (k : κ), k ∈ ks →
      tableLookup k (ks.map (fun k2 => (k2, f k2))) = some (f k) := by
  intro ks
  induction ks with
  | nil => intro k hk; simp at hk
  | cons k0 ks ih =>
    intro k hk
    rw [List.map_cons]
    by_cases h : k = k0
    · subst h
      simp only [tableLookup, if_pos rfl, if_true]
    · simp only [tableLookup, if_neg h]
      exact ih k ((List.mem_cons.mp hk).resolve_left h)

/-- Two deduction-bearing rows of one employee with dates in descending
order (2 May before 1 May in row order). -/
def c6rows : List InputRow :=
  [⟨some "E2", "B", some ⟨2024, 5, 2⟩, none, none, none, "P"⟩,
   ⟨some "E2", "B", some ⟨2024, 5, 1⟩, none, none, none, "P"⟩]

/-- Claim C6 is false on the code: line 173 joins the group dates with
`', '.join(x)` without sorting or de-duplicating, so the cell keeps the
row order "02/05/2024, 01/05/2024" where the spec promises the sorted
list "01/05/2024, 02/05/2024". -/
theorem summary_dates_unsorted_cex :
    summaryTable (pipeline c6rows) =
      [(("E2", "B", ⟨2024, 5⟩), "02/05/2024, 01/05/2024")] ∧
    specSortedDedupJoin (groupDatesFor (pipeline c6rows) ("E2", "B", ⟨2024, 5⟩)) =
      "01/05/2024, 02/05/2024" ∧
    summaryDatesFor (pipeline c6rows) ("E2", "B", ⟨2024, 5⟩) ≠
      specSortedDedupJoin (groupDatesFor (pipeline c6rows) ("E2", "B", ⟨2024, 5⟩)) := by
  decide

/-- Claim C6 amended: every summary row's deduction-dates cell is the
comma-joined list of that group's deduction dates in original row order,
each formatted `DD/MM/YYYY` — without sorting or de-duplication. -/
theorem summary_dates_row_order (l : List ERow) (k : String × String × Period)
    (hk : k ∈ summaryKeys l) :
    tableLookup k (summaryTable l) =
      some (joinComma ((groupDatesFor l k).map formatDate)) := by
  rw [summaryTable]
  exact tableLookup_map_self (summaryDatesFor l) (summaryKeys l) k hk

/-- Concrete instance of `summary_dates_row_order`. -/
theorem summary_dates_row_order_witness :
    tableLookup ("E2", "B", (⟨2024, 5⟩ : Period)) (summaryTable (pipeline c6rows)) =
      some (joinComma
        ((groupDatesFor (pipeline c6rows) ("E2", "B", ⟨2024, 5⟩)).map formatDate)) :=
  summary_dates_row_order (pipeline c6rows) ("E2", "B", ⟨2024, 5⟩) (by decide)

/-! Required-column errors (claim C9). -/

/-- Claim C9 amended: a table missing any of the seven canonical columns
the code actually reads fails with an error naming the first such column
in access order, and no output is produced; when all seven are present
the run succeeds.  (`designation` is mapped by the rename but never
read, so its absence alone cannot abort the run — see the
counterexample.) -/
theorem missing_accessed_column_error (cols : List String) (rows : List InputRow) :
    ((∃ c ∈ accessedColumns, c ∉ cols) →
      ∃ c ∈ accessedColumns, c ∉ cols ∧ processTable cols rows = .error c) ∧
    ((∀ c ∈ accessedColumns, c ∈ cols) →
      processTable cols rows = .ok (pipeline rows)) := by
  constructor
  · intro hmiss
    have hex : ∃ c ∈ accessedColumns, (!cols.contains c) = true := by
      obtain ⟨c, hc, hn⟩ := hmiss
      exact ⟨c, hc, by simp [hn]⟩
    have hfind : (accessedColumns.find? (fun c => !cols.contains c)).isSome :=
      List.find?_isSome.mpr hex
    obtain ⟨c, hc⟩ := Option.isSome_iff_exists.mp hfind
    refine ⟨c, List.mem_of_find?_eq_some hc, ?_, ?_⟩
    · have h2 := List.find?_some hc
      simpa using h2
    · simp only [processTable, checkColumns, hc]
  · intro hall
    have hnone : accessedColumns.find? (fun c => !cols.contains c) = none := by
      apply List.find?_eq_none.mpr
      intro c hc
      simp [hall c hc]
    simp only [processTable, checkColumns, hnone]

/-- The canonical columns of a table that has everything required except
`designation`. -/
def c9cols : List String :=
  ["employee_id", "employee_name", "date", "punch_in_raw",
   "punch_out_raw", "worked_duration", "attendance_status"]

/-- A one-row table for the column-error scenarios. -/
def c9rows : List InputRow := [⟨some "E9", "N", some ⟨2024, 5, 2⟩, none, none, none, "P"⟩]

/-- Claim C9 is false on the code: `designation` is one of the required
canonical columns, yet a table that lacks exactly it runs to completion
and produces output, because the pipeline renames `DESIG NAME` but never
accesses the `designation` column. -/
theorem missing_designation_no_error_cex :
    "designation" ∈ requiredColumns ∧ "designation" ∉ c9cols ∧
    (∀ c ∈ requiredColumns, c ≠ "designation" → c ∈ c9cols) ∧
    processTable c9cols c9rows = .ok (pipeline c9rows) ∧
    (pipeline c9rows).length = 1 := by
  decide

/-- Concrete instance of `missing_accessed_column_error`: a table with
only `employee_id` fails naming a missing column, a table with all
required columns succeeds. -/
theorem missing_accessed_column_error_witness :
    (∃ c ∈ accessedColumns, c ∉ (["employee_id"] : List String) ∧
      processTable ["employee_id"] c9rows = .error c) ∧
    processTable requiredColumns c9rows = .ok (pipeline c9rows) :=
  ⟨(missing_accessed_column_error ["employee_id"] c9rows).1 (by decide),
   (missing_accessed_column_error requiredColumns c9rows).2 (by decide)⟩

end Attendance
